import Mathlib

/-!
Verification of the ToDoList task store and its two persistence variants.

The embedding follows the repository's JavaScript source:
  * the REST route handlers over the relational table (routes/taskRoutes.js),
  * the API-based client (the ToDoApp class of the PostgreSQL version),
  * the localStorage-based client (public/app.js).
Timestamps and ids are modelled as naturals (the code uses
Date.now().toString(); Nat.repr is injective, so Nat equality coincides with
the string equality used by the code).  Each user operation is atomic at a
single time `now`; timer callbacks due by `now` fire before the operation's
handler runs, matching the single-threaded JavaScript event loop.  A failing
backend transport (fetch rejection) is modelled by the `netOk` flag.
-/

namespace ToDoList

/-- Whitespace test for the characters String.prototype.trim strips on the
titles this application handles. -/
def isWs (c : Char) : Bool :=
  c = ' ' || c = '\t' || c = '\n' || c = '\r'

/-- Remove trailing whitespace from a character list. -/
def trimRightC (l : List Char) : List Char :=
  (l.reverse.dropWhile isWs).reverse

/-- Model of JavaScript String.prototype.trim: strip leading and trailing
whitespace. -/
def jsTrim (s : String) : String :=
  String.mk (trimRightC (s.data.dropWhile isWs))

/-- The client-side Task model (public/app.js, class Task). -/
structure Task where
  id : Nat
  title : String
  isDone : Bool
  createdAt : Nat
deriving Repr, DecidableEq

/-- A row of the relational table tasks(id, title, is_done, created_at,
updated_at). -/
structure Row where
  id : Nat
  title : String
  is_done : Bool
  created_at : Nat
  updated_at : Nat
deriving Repr, DecidableEq

/-- The projection SELECT id, title, is_done as "isDone", created_at as
"createdAt" used by every route. -/
def Row.toTask (r : Row) : Task :=
  ⟨r.id, r.title, r.is_done, r.created_at⟩

/-- The uniform JSON envelope of the REST surface. -/
structure ApiResponse where
  status : Nat
  success : Bool
  data : Option Task
  error : Option String
deriving Repr, DecidableEq

namespace Routes

/-- POST /api/tasks.  Rejects a missing or blank title with 400; a violated
primary-key constraint on the insert is answered 500 by the route's catch;
otherwise the row (id and timestamps taken from Date.now()) is inserted and
returned with 201. -/
def postTasks (table : List Row) (title : Option String) (now : Nat) :
    List Row × ApiResponse :=
  match title with
  | none => (table, ⟨400, false, none, some "Title is required"⟩)
  | some t =>
    if jsTrim t = "" then
      (table, ⟨400, false, none, some "Title is required"⟩)
    else if table.any (fun r => r.id = now) then
      (table, ⟨500, false, none, some "Failed to create task"⟩)
    else
      (table ++ [⟨now, jsTrim t, false, now, now⟩],
       ⟨201, true, some (Row.toTask ⟨now, jsTrim t, false, now, now⟩), none⟩)

/-- Body of PUT /api/tasks/:id; both fields optional. -/
structure PutBody where
  title : Option String
  isDone : Option Bool
deriving Repr, DecidableEq

/-- The single-row effect of the dynamically built UPDATE statement: always
set updated_at; set title only when one was supplied and is non-blank after
trimming; set is_done only when supplied. -/
def updRow (id : Nat) (body : PutBody) (now : Nat) (r : Row) : Row :=
  if r.id = id then
    let r1 := { r with updated_at := now }
    let r2 := match body.title with
      | some t => if jsTrim t = "" then r1 else { r1 with title := jsTrim t }
      | none => r1
    match body.isDone with
    | some b => { r2 with is_done := b }
    | none => r2
  else r

/-- PUT /api/tasks/:id.  Runs the UPDATE; RETURNING no rows means the id is
unknown and the route answers 404. -/
def putTask (table : List Row) (id : Nat) (body : PutBody) (now : Nat) :
    List Row × ApiResponse :=
  let table2 := table.map (updRow id body now)
  match table2.find? (fun r => r.id = id) with
  | some r => (table2, ⟨200, true, some r.toTask, none⟩)
  | none => (table2, ⟨404, false, none, some "Task not found"⟩)

/-- DELETE /api/tasks/:id.  RETURNING no rows means the id is unknown and the
route answers 404. -/
def deleteTask (table : List Row) (id : Nat) : List Row × ApiResponse :=
  match table.find? (fun r => r.id = id) with
  | some r => (table.filter (fun r2 => r2.id != id), ⟨200, true, some r.toTask, none⟩)
  | none => (table, ⟨404, false, none, some "Task not found"⟩)

end Routes

/-- Model of Array.prototype.splice(i, 0, a): insertion at a clamped index,
with the JavaScript treatment of negative indices. -/
def spliceInsert {α : Type} (l : List α) (i : Int) (a : α) : List α :=
  let pos : Nat := if i < 0 then ((l.length : Int) + i).toNat else min i.toNat l.length
  l.take pos ++ a :: l.drop pos

/-- Mutation of the first element satisfying p, as performed by
tasks.find(...) followed by an in-place field assignment. -/
def updateFirst {α : Type} (p : α → Bool) (f : α → α) : List α → List α
  | [] => []
  | a :: l => if p a then f a :: l else a :: updateFirst p f l

/-- Array.prototype.findIndex, with none for the -1 sentinel. -/
def findIndexO {α : Type} (p : α → Bool) : List α → Option Nat
  | [] => none
  | a :: l => if p a then some 0 else (findIndexO p l).map (fun n => n + 1)

/-- Session state of the API-based client together with its backend: the
in-memory array, the pending-undo record (deletedTask / deletedTaskIndex,
with the JavaScript -1 sentinel), the relational table, and the fire times of
the outstanding undo-clearing setTimeout callbacks. -/
structure ApiState where
  tasks : List Task
  deletedTask : Option Task
  deletedTaskIndex : Int
  table : List Row
  timers : List Nat
deriving Repr, DecidableEq

/-- Body of the setTimeout callback scheduled by deleteTask: it clears the
pending-undo record unconditionally. -/
def timerCallback (s : ApiState) : ApiState :=
  { s with deletedTask := none, deletedTaskIndex := -1 }

/-- Run every scheduled callback whose fire time has been reached, as the
event loop does before the handler of an operation at time now runs. -/
def fireDueTimers (s : ApiState) (now : Nat) : ApiState :=
  let due := s.timers.filter (fun t => t ≤ now)
  let s2 := due.foldl (fun st _ => timerCallback st) s
  { s2 with timers := s2.timers.filter (fun t => now < t) }

namespace ApiApp

/-- The message of the Error thrown by apiCall on a non-2xx response. -/
def failMsg (resp : ApiResponse) : String :=
  resp.error.getD "API error"

/-- response.ok: the HTTP status is in the 2xx range. -/
def respOk (resp : ApiResponse) : Bool :=
  200 ≤ resp.status && resp.status < 300

/-- ToDoApp.addTask (API version): POST the raw title; on success prepend the
returned canonical record; on any failure leave the array untouched.  The
second component is the surfaced error message, if any. -/
def addTask (s0 : ApiState) (title : String) (now : Nat) (netOk : Bool) :
    ApiState × Option String :=
  let s := fireDueTimers s0 now
  if netOk = false then (s, some "Failed to fetch")
  else
    let pr := Routes.postTasks s.table (some title) now
    let s2 := { s with table := pr.1 }
    if respOk pr.2 = false then (s2, some (failMsg pr.2))
    else if pr.2.success = false then (s2, none)
    else match pr.2.data with
      | some t => ({ s2 with tasks := t :: s2.tasks }, none)
      | none => (s2, none)

/-- ToDoApp.toggleTask (API version): no-op when the id is not in memory;
otherwise PUT the negated flag and copy the backend-confirmed value onto the
in-memory task. -/
def toggleTask (s0 : ApiState) (id : Nat) (now : Nat) (netOk : Bool) :
    ApiState × Option String :=
  let s := fireDueTimers s0 now
  match s.tasks.find? (fun t => t.id = id) with
  | none => (s, none)
  | some task =>
    if netOk = false then (s, some "Failed to fetch")
    else
      let pr := Routes.putTask s.table id ⟨none, some (!task.isDone)⟩ now
      let s2 := { s with table := pr.1 }
      if respOk pr.2 = false then (s2, some (failMsg pr.2))
      else if pr.2.success = false then (s2, none)
      else match pr.2.data with
        | some td =>
          ({ s2 with tasks := (updateFirst (fun t => t.id = id) (fun t => { t with isDone := td.isDone }) s2.tasks) }, none)
        | none => (s2, none)

/-- ToDoApp.editTask (API version): silently return on a blank new title;
otherwise PUT the raw title and copy the backend-confirmed (trimmed) title
onto the in-memory task, if it is still there. -/
def editTask (s0 : ApiState) (id : Nat) (newTitle : String) (now : Nat)
    (netOk : Bool) : ApiState × Option String :=
  let s := fireDueTimers s0 now
  if jsTrim newTitle = "" then (s, none)
  else if netOk = false then (s, some "Failed to fetch")
  else
    let pr := Routes.putTask s.table id ⟨some newTitle, none⟩ now
    let s2 := { s with table := pr.1 }
    if respOk pr.2 = false then (s2, some (failMsg pr.2))
    else if pr.2.success = false then (s2, none)
    else match pr.2.data with
      | some td =>
        ({ s2 with tasks := (updateFirst (fun t => t.id = id) (fun t => { t with title := td.title }) s2.tasks) }, none)
      | none => (s2, none)

/-- The catch block of ToDoApp.deleteTask: reinsert the captured task at its
captured index.  It does not clear the pending-undo record. -/
def restoreOnError (s : ApiState) : ApiState :=
  match s.deletedTask with
  | some t =>
    if s.deletedTaskIndex = -1 then s
    else { s with tasks := spliceInsert s.tasks s.deletedTaskIndex t }
  | none => s

/-- ToDoApp.deleteTask (API version): capture the task and its index as the
pending-undo record, remove it optimistically, issue the backend DELETE; on
success schedule the 5 second undo-clearing timer, on failure roll the
removal back. -/
def deleteTask (s0 : ApiState) (id : Nat) (now : Nat) (netOk : Bool) :
    ApiState × Option String :=
  let s := fireDueTimers s0 now
  match findIndexO (fun t => t.id = id) s.tasks with
  | none => (s, none)
  | some index =>
    match s.tasks[index]? with
    | none => (s, none)
    | some task =>
      let s1 := { s with deletedTask := some task, deletedTaskIndex := (index : Int),
                         tasks := s.tasks.eraseIdx index }
      if netOk = false then (restoreOnError s1, some "Failed to fetch")
      else
        let pr := Routes.deleteTask s1.table id
        let s2 := { s1 with table := pr.1 }
        if respOk pr.2 = false then (restoreOnError s2, some (failMsg pr.2))
        else ({ s2 with timers := s2.timers ++ [now + 5000] }, none)

/-- ToDoApp.undoDelete (API version): no-op without a pending-undo record;
otherwise POST the record's title (a re-creation), splice the returned new
record in at the captured index and clear the record. -/
def undoDelete (s0 : ApiState) (now : Nat) (netOk : Bool) :
    ApiState × Option String :=
  let s := fireDueTimers s0 now
  match s.deletedTask with
  | none => (s, none)
  | some dt =>
    if netOk = false then (s, some "Failed to fetch")
    else
      let pr := Routes.postTasks s.table (some dt.title) now
      let s2 := { s with table := pr.1 }
      if respOk pr.2 = false then (s2, some (failMsg pr.2))
      else if pr.2.success = false then (s2, none)
      else match pr.2.data with
        | some t =>
          ({ s2 with tasks := spliceInsert s2.tasks s2.deletedTaskIndex t,
                     deletedTask := none, deletedTaskIndex := -1 }, none)
        | none => (s2, none)

end ApiApp

/-- Session state of the localStorage-based client: the in-memory array, the
pending-undo record, and the whole-document serialized copy under the single
storage key. -/
structure LocalState where
  tasks : List Task
  deletedTask : Option Task
  deletedTaskIndex : Int
  storage : List Task
deriving Repr, DecidableEq

namespace LocalApp

/-- saveTasks: overwrite the whole stored document with the in-memory array. -/
def saveTasks (s : LocalState) : LocalState :=
  { s with storage := s.tasks }

/-- ToDoApp.addTask (localStorage version): Task.create prepended, then
persisted; blank input is silently ignored. -/
def addTask (s : LocalState) (input : String) (now : Nat) : LocalState :=
  if jsTrim input = "" then s
  else saveTasks { s with tasks := (⟨now, jsTrim input, false, now⟩ : Task) :: s.tasks }

/-- ToDoApp.toggleTask (localStorage version): flip isDone in place if found. -/
def toggleTask (s : LocalState) (id : Nat) : LocalState :=
  match s.tasks.find? (fun t => t.id = id) with
  | none => s
  | some _ =>
    saveTasks { s with tasks := (updateFirst (fun t => t.id = id) (fun t => { t with isDone := !t.isDone }) s.tasks) }

/-- ToDoApp.deleteTask (localStorage version): capture the pending-undo
record and remove the task. -/
def deleteTask (s : LocalState) (id : Nat) : LocalState :=
  match findIndexO (fun t => t.id = id) s.tasks with
  | none => s
  | some index =>
    match s.tasks[index]? with
    | none => s
    | some task =>
      saveTasks { s with tasks := s.tasks.eraseIdx index,
                         deletedTask := some task, deletedTaskIndex := (index : Int) }

/-- ToDoApp.undoDelete (localStorage version): reinsert the original captured
task object at its captured index and clear the record. -/
def undoDelete (s : LocalState) : LocalState :=
  match s.deletedTask with
  | none => s
  | some t =>
    if s.deletedTaskIndex = -1 then s
    else saveTasks { s with tasks := spliceInsert s.tasks s.deletedTaskIndex t,
                            deletedTask := none, deletedTaskIndex := -1 }

/-- ToDoApp.editTask (localStorage version): replace the title with the
trimmed input when the task exists and the input is not blank. -/
def editTask (s : LocalState) (id : Nat) (newTitle : String) : LocalState :=
  match s.tasks.find? (fun t => t.id = id) with
  | none => s
  | some _ =>
    if jsTrim newTitle = "" then s
    else saveTasks { s with tasks := (updateFirst (fun t => t.id = id) (fun t => { t with title := jsTrim newTitle }) s.tasks) }

end LocalApp

/-- A user intent forwarded by the presentation layer. -/
inductive Op where
  | add (title : String)
  | toggle (id : Nat)
  | edit (id : Nat) (title : String)
  | del (id : Nat)
  | undo
deriving Repr, DecidableEq

/-- One user operation against the API-based client, performed at time now
with transport flag netOk. -/
def applyOp (s : ApiState) (op : Op) (now : Nat) (netOk : Bool) : ApiState :=
  match op with
  | .add t => (ApiApp.addTask s t now netOk).1
  | .toggle id => (ApiApp.toggleTask s id now netOk).1
  | .edit id t => (ApiApp.editTask s id t now netOk).1
  | .del id => (ApiApp.deleteTask s id now netOk).1
  | .undo => (ApiApp.undoDelete s now netOk).1

/-- A session: a sequence of timed operations. -/
def runTrace (s : ApiState) : List (Op × Nat × Bool) → ApiState
  | [] => s
  | e :: tr => runTrace (applyOp s e.1 e.2.1 e.2.2) tr

/-- The state of a fresh session over an empty table. -/
def initState : ApiState :=
  ⟨[], none, -1, [], []⟩

/-- The normal-clock assumption of the spec: each operation's Date.now()
value is strictly later than the previous one's. -/
def TimesOk : Nat → List (Op × Nat × Bool) → Bool
  | _, [] => true
  | c, e :: tr => (c ≤ e.2.1) && TimesOk (e.2.1 + 1) tr

end ToDoList

namespace ToDoList

/-! ### Generic list lemmas -/

theorem dropWhile_dropWhile {α : Type} (p : α → Bool) (l : List α) :
    (l.dropWhile p).dropWhile p = l.dropWhile p := by
  induction l with
  | nil => rfl
  | cons a t ih =>
    by_cases h : p a
    · simp [List.dropWhile_cons, h, ih]
    · simp [List.dropWhile_cons, h]

theorem dropWhile_head_false {α : Type} {p : α → Bool} {l t : List α} {a : α}
    (h : l.dropWhile p = a :: t) : p a = false := by
  induction l with
  | nil => simp at h
  | cons b u ih =>
    by_cases hb : p b
    · rw [List.dropWhile_cons_of_pos hb] at h
      exact ih h
    · rw [List.dropWhile_cons_of_neg hb] at h
      cases h
      exact Bool.eq_false_iff.mpr hb

theorem dropWhile_concat_of_neg {α : Type} {p : α → Bool} {a : α}
    (h : p a = false) (l : List α) :
    (l ++ [a]).dropWhile p = l.dropWhile p ++ [a] := by
  induction l with
  | nil => simp [List.dropWhile_cons, h]
  | cons b u ih =>
    by_cases hb : p b
    · simp only [List.cons_append, List.dropWhile_cons_of_pos hb]
      exact ih
    · simp [List.dropWhile_cons_of_neg hb]

theorem updateFirst_nil {α : Type} (p : α → Bool) (f : α → α) :
    updateFirst p f [] = [] := rfl

theorem updateFirst_cons {α : Type} (p : α → Bool) (f : α → α) (a : α) (l : List α) :
    updateFirst p f (a :: l) =
      if p a then f a :: l else a :: updateFirst p f l := rfl

theorem map_updateFirst {α β : Type} (p : α → Bool) (f : α → α) (g : α → β)
    (hfg : ∀ x, g (f x) = g x) (l : List α) :
    (updateFirst p f l).map g = l.map g := by
  induction l with
  | nil => rfl
  | cons a t ih =>
    by_cases h : p a
    · simp [updateFirst_cons, h, hfg]
    · simp [updateFirst_cons, h, ih]

theorem mem_updateFirst {α : Type} {p : α → Bool} {f : α → α} {l : List α} {x : α}
    (h : x ∈ updateFirst p f l) : x ∈ l ∨ ∃ y ∈ l, x = f y := by
  induction l with
  | nil => simp [updateFirst_nil] at h
  | cons a t ih =>
    rw [updateFirst_cons] at h
    by_cases ha : p a
    · rw [if_pos ha] at h
      rcases List.mem_cons.mp h with h1 | h1
      · exact Or.inr ⟨a, List.mem_cons_self a t, h1⟩
      · exact Or.inl (List.mem_cons_of_mem a h1)
    · rw [if_neg ha] at h
      rcases List.mem_cons.mp h with h1 | h1
      · exact Or.inl (h1 ▸ List.mem_cons_self a t)
      · rcases ih h1 with h2 | ⟨y, hy, hxy⟩
        · exact Or.inl (List.mem_cons_of_mem a h2)
        · exact Or.inr ⟨y, List.mem_cons_of_mem a hy, hxy⟩

theorem updateFirst_congr {α : Type} {p : α → Bool} {l : List α} {a : α}
    (f g : α → α) (h : l.find? p = some a) (hfg : f a = g a) :
    updateFirst p f l = updateFirst p g l := by
  induction l with
  | nil => simp at h
  | cons b t ih =>
    by_cases hb : p b
    · rw [List.find?_cons_of_pos _ hb] at h
      cases h
      simp [updateFirst_cons, hb, hfg]
    · rw [List.find?_cons_of_neg _ hb] at h
      simp [updateFirst_cons, hb, ih h]

theorem updateFirst_of_find?_none {α : Type} {p : α → Bool} {l : List α}
    (f : α → α) (h : l.find? p = none) : updateFirst p f l = l := by
  induction l with
  | nil => rfl
  | cons b t ih =>
    by_cases hb : p b
    · rw [List.find?_cons_of_pos _ hb] at h
      simp at h
    · rw [List.find?_cons_of_neg _ hb] at h
      simp [updateFirst_cons, hb, ih h]

theorem findIndexO_some {α : Type} {p : α → Bool} {l : List α} {i : Nat}
    (h : findIndexO p l = some i) : ∃ a, l[i]? = some a ∧ p a = true := by
  induction l generalizing i with
  | nil => simp [findIndexO] at h
  | cons b t ih =>
    by_cases hb : p b
    · rw [findIndexO, if_pos hb] at h
      cases h
      exact ⟨b, by simp, hb⟩
    · rw [findIndexO, if_neg hb] at h
      cases hi : findIndexO p t with
      | none => rw [hi] at h; simp at h
      | some j =>
        rw [hi] at h
        simp only [Option.map_some'] at h
        cases h
        rcases ih hi with ⟨a, ha, hpa⟩
        exact ⟨a, by simpa using ha, hpa⟩

theorem findIndexO_isSome_of_mem {α : Type} {p : α → Bool} {l : List α} {x : α}
    (hx : x ∈ l) (hp : p x = true) : ∃ i, findIndexO p l = some i := by
  induction l with
  | nil => simp at hx
  | cons b t ih =>
    by_cases hb : p b
    · exact ⟨0, by rw [findIndexO, if_pos hb]⟩
    · rcases List.mem_cons.mp hx with h1 | h1
      · subst h1; rw [hp] at hb; simp at hb
      · rcases ih h1 with ⟨j, hj⟩
        exact ⟨j + 1, by rw [findIndexO, if_neg hb, hj, Option.map_some']⟩

theorem take_cons_drop_eraseIdx {α : Type} :
    ∀ (l : List α) (i : Nat) (x : α), l[i]? = some x →
      (l.eraseIdx i).take i ++ x :: (l.eraseIdx i).drop i = l := by
  intro l
  induction l with
  | nil => intro i x h; simp at h
  | cons a t ih =>
    intro i x h
    cases i with
    | zero =>
      simp only [List.getElem?_cons_zero, Option.some.injEq] at h
      subst h
      simp [List.eraseIdx]
    | succ j =>
      simp only [List.getElem?_cons_succ] at h
      simp only [List.eraseIdx, List.take_succ_cons, List.drop_succ_cons, List.cons_append,
        List.cons.injEq, true_and]
      exact ih j x h

theorem getElem?_some_lt {α : Type} {l : List α} {i : Nat} {x : α}
    (h : l[i]? = some x) : i < l.length := by
  by_contra hc
  rw [List.getElem?_eq_none (Nat.le_of_not_lt hc)] at h
  exact Option.noConfusion h

theorem spliceInsert_natCast {α : Type} (l : List α) (i : Nat) (a : α)
    (h : i ≤ l.length) :
    spliceInsert l (i : Int) a = l.take i ++ a :: l.drop i := by
  have h1 : ¬ ((i : Int) < 0) := by omega
  have h2 : (i : Int).toNat = i := Int.toNat_natCast i
  simp only [spliceInsert, if_neg h1, h2, Nat.min_eq_left h]

theorem spliceInsert_eraseIdx {α : Type} (l : List α) (i : Nat) (x : α)
    (h : l[i]? = some x) : spliceInsert (l.eraseIdx i) (i : Int) x = l := by
  have hlt : i < l.length := getElem?_some_lt h
  have hlen : i ≤ (l.eraseIdx i).length := by
    rw [List.length_eraseIdx_of_lt hlt]; omega
  rw [spliceInsert_natCast _ _ _ hlen]
  exact take_cons_drop_eraseIdx l i x h

theorem spliceInsert_perm {α : Type} (l : List α) (i : Int) (a : α) :
    (spliceInsert l i a).Perm (a :: l) := by
  unfold spliceInsert
  refine List.perm_middle.trans ?_
  rw [List.take_append_drop]

end ToDoList

namespace ToDoList

/-! ### Timer-firing lemmas -/

theorem foldl_timerCallback (l : List Nat) (s : ApiState) :
    l.foldl (fun st _ => timerCallback st) s =
      if l.isEmpty then s else timerCallback s := by
  induction l generalizing s with
  | nil => rfl
  | cons a t ih =>
    rw [List.foldl_cons, ih]
    cases t <;> rfl

theorem fireDueTimers_tasks (s : ApiState) (now : Nat) :
    (fireDueTimers s now).tasks = s.tasks := by
  simp only [fireDueTimers, foldl_timerCallback]
  split <;> rfl

theorem fireDueTimers_table (s : ApiState) (now : Nat) :
    (fireDueTimers s now).table = s.table := by
  simp only [fireDueTimers, foldl_timerCallback]
  split <;> rfl

theorem fireDueTimers_deletedTask_none (s : ApiState) (now : Nat)
    (h : ∃ t ∈ s.timers, t ≤ now) :
    (fireDueTimers s now).deletedTask = none := by
  simp only [fireDueTimers, foldl_timerCallback]
  rcases h with ⟨t, ht, htle⟩
  have hmem : t ∈ s.timers.filter (fun t => t ≤ now) :=
    List.mem_filter.mpr ⟨ht, by simpa using htle⟩
  have hne : s.timers.filter (fun t => t ≤ now) ≠ [] := by
    intro hnil
    rw [hnil] at hmem
    simp at hmem
  rw [if_neg (by simpa [List.isEmpty_iff] using hne)]
  rfl

theorem fireDueTimers_deletedTask_cases (s : ApiState) (now : Nat) :
    (fireDueTimers s now).deletedTask = s.deletedTask ∨
      (fireDueTimers s now).deletedTask = none := by
  simp only [fireDueTimers, foldl_timerCallback]
  split
  · left; rfl
  · right; rfl

/-! ### Trim lemmas -/

theorem trimRightC_nil : trimRightC [] = [] := rfl

theorem trimRightC_cons {a : Char} (h : isWs a = false) (l : List Char) :
    trimRightC (a :: l) = a :: trimRightC l := by
  unfold trimRightC
  rw [List.reverse_cons, dropWhile_concat_of_neg h, List.reverse_append]
  rfl

theorem trimRightC_idem (l : List Char) :
    trimRightC (trimRightC l) = trimRightC l := by
  unfold trimRightC
  rw [List.reverse_reverse, dropWhile_dropWhile]

theorem dropWhile_trimRightC_dropWhile (l : List Char) :
    (trimRightC (l.dropWhile isWs)).dropWhile isWs =
      trimRightC (l.dropWhile isWs) := by
  cases hA : l.dropWhile isWs with
  | nil => rfl
  | cons a t =>
    have ha : isWs a = false := dropWhile_head_false hA
    rw [trimRightC_cons ha, List.dropWhile_cons_of_neg (by simp [ha])]

theorem jsTrim_idem (s : String) : jsTrim (jsTrim s) = jsTrim s := by
  unfold jsTrim
  rw [show (String.mk (trimRightC (s.data.dropWhile isWs))).data =
        trimRightC (s.data.dropWhile isWs) from rfl,
    dropWhile_trimRightC_dropWhile, trimRightC_idem]

end ToDoList

namespace ToDoList

/-! ### Route helper lemmas -/

theorem updRow_id (id : Nat) (body : Routes.PutBody) (now : Nat) (r : Row) :
    (Routes.updRow id body now r).id = r.id := by
  unfold Routes.updRow
  split
  · cases body.title with
    | none => cases body.isDone <;> rfl
    | some t =>
      by_cases h : jsTrim t = "" <;> cases body.isDone <;> simp [h]
  · rfl

theorem find?_map_pred {α : Type} (p : α → Bool) (f : α → α)
    (hf : ∀ x, p (f x) = p x) (l : List α) :
    (l.map f).find? p = (l.find? p).map f := by
  induction l with
  | nil => rfl
  | cons a t ih =>
    by_cases h : p a
    · rw [List.map_cons, List.find?_cons_of_pos _ (by rw [hf]; exact h),
        List.find?_cons_of_pos _ h, Option.map_some']
    · rw [List.map_cons,
        List.find?_cons_of_neg _ (by rw [hf]; exact h),
        List.find?_cons_of_neg _ h, ih]

theorem map_updRow_of_absent {table : List Row} {id : Nat}
    (body : Routes.PutBody) (now : Nat) (h : ∀ r ∈ table, r.id ≠ id) :
    table.map (Routes.updRow id body now) = table := by
  have h2 : ∀ r ∈ table, Routes.updRow id body now r = r := by
    intro r hr
    unfold Routes.updRow
    rw [if_neg (h r hr)]
  calc table.map (Routes.updRow id body now) = table.map (fun r => r) :=
        List.map_congr_left h2
    _ = table := List.map_id' table

theorem find?_id_eq_none {table : List Row} {id : Nat}
    (h : ∀ r ∈ table, r.id ≠ id) :
    table.find? (fun r => r.id = id) = none :=
  List.find?_eq_none.mpr (fun r hr => by simpa using h r hr)

/-- Claim C9: PUT and DELETE on an id with no matching row answer 404 with
the envelope success=false, error="Task not found", and leave the table
unchanged. -/
theorem putTask_deleteTask_unknown_id (table : List Row) (id : Nat)
    (body : Routes.PutBody) (now : Nat) (h : ∀ r ∈ table, r.id ≠ id) :
    Routes.putTask table id body now =
      (table, ⟨404, false, none, some "Task not found"⟩) ∧
    Routes.deleteTask table id =
      (table, ⟨404, false, none, some "Task not found"⟩) := by
  constructor
  · simp only [Routes.putTask, map_updRow_of_absent body now h, find?_id_eq_none h]
  · simp only [Routes.deleteTask, find?_id_eq_none h]

/-- Witness for C9 at a concrete table and unknown id. -/
theorem putTask_deleteTask_unknown_id_witness :
    Routes.putTask [⟨1, "a", false, 1, 1⟩] 2 ⟨none, none⟩ 5 =
      ([⟨1, "a", false, 1, 1⟩], ⟨404, false, none, some "Task not found"⟩) ∧
    Routes.deleteTask [⟨1, "a", false, 1, 1⟩] 2 =
      ([⟨1, "a", false, 1, 1⟩], ⟨404, false, none, some "Task not found"⟩) :=
  putTask_deleteTask_unknown_id _ _ _ _ (by decide)

/-- Claim C10: a PUT on an existing id whose body carries no isDone and whose
title is absent or blank succeeds with 200 and only touches updated_at: the
projection returned to clients (id, title, isDone, createdAt) is unchanged
for every row. -/
theorem putTask_no_field_update (table : List Row) (id : Nat)
    (body : Routes.PutBody) (now : Nat)
    (hid : ∃ r ∈ table, r.id = id)
    (ht : ∀ t, body.title = some t → jsTrim t = "")
    (hd : body.isDone = none) :
    (Routes.putTask table id body now).2.status = 200 ∧
    (Routes.putTask table id body now).2.success = true ∧
    (Routes.putTask table id body now).1 =
      table.map (fun r => if r.id = id then { r with updated_at := now } else r) ∧
    ((Routes.putTask table id body now).1).map Row.toTask =
      table.map Row.toTask := by
  obtain ⟨bt, bd⟩ := body
  simp only at ht hd
  subst hd
  have hupd : ∀ r : Row, Routes.updRow id ⟨bt, none⟩ now r =
      if r.id = id then { r with updated_at := now } else r := by
    intro r
    cases bt with
    | none => simp [Routes.updRow]
    | some t => simp [Routes.updRow, ht t rfl]
  rcases hid with ⟨r0, hr0, hr0id⟩
  have hfind : ∃ r1, table.find? (fun r => r.id = id) = some r1 := by
    cases hf : table.find? (fun r => r.id = id) with
    | none =>
      exact absurd (by simpa using hr0id) (List.find?_eq_none.mp hf r0 hr0)
    | some r1 => exact ⟨r1, rfl⟩
  rcases hfind with ⟨r1, hr1⟩
  have hmap : (table.map (Routes.updRow id ⟨bt, none⟩ now)).find?
      (fun r => r.id = id) = some (Routes.updRow id ⟨bt, none⟩ now r1) := by
    rw [find?_map_pred _ _ (fun x => by rw [updRow_id]) table, hr1, Option.map_some']
  simp only [Routes.putTask, hmap]
  refine ⟨by trivial, by trivial, List.map_congr_left (fun r _ => hupd r), ?_⟩
  rw [List.map_map]
  refine List.map_congr_left (fun r _ => ?_)
  simp only [Function.comp_apply, hupd r]
  split <;> rfl

/-- Witness for C10: PUT with a blank title and no isDone on an existing row. -/
theorem putTask_no_field_update_witness :
    (Routes.putTask [⟨1, "a", false, 1, 1⟩] 1 ⟨some "   ", none⟩ 9).2.status = 200 ∧
    (Routes.putTask [⟨1, "a", false, 1, 1⟩] 1 ⟨some "   ", none⟩ 9).2.success = true ∧
    (Routes.putTask [⟨1, "a", false, 1, 1⟩] 1 ⟨some "   ", none⟩ 9).1 =
      [⟨1, "a", false, 1, 1⟩].map
        (fun r => if r.id = 1 then { r with updated_at := 9 } else r) ∧
    ((Routes.putTask [⟨1, "a", false, 1, 1⟩] 1 ⟨some "   ", none⟩ 9).1).map Row.toTask =
      [⟨1, "a", false, 1, 1⟩].map Row.toTask :=
  putTask_no_field_update _ _ _ _ (by decide)
    (fun t ht => by cases ht; decide) (by decide)

/-- Claim C5: Add rejects a blank-after-trim title with the 400 validation
error and leaves the in-memory array untouched, and a failing backend call
also leaves the array untouched while surfacing the failure. -/
theorem addTask_validation_and_failure :
    (∀ (s : ApiState) (title : String) (now : Nat), jsTrim title = "" →
      (ApiApp.addTask s title now true).1.tasks = s.tasks ∧
      (ApiApp.addTask s title now true).2 = some "Title is required") ∧
    (∀ (s : ApiState) (title : String) (now : Nat),
      (ApiApp.addTask s title now false).1.tasks = s.tasks ∧
      (ApiApp.addTask s title now false).2 = some "Failed to fetch") := by
  constructor
  · intro s title now h
    constructor
    · simp [ApiApp.addTask, Routes.postTasks, h, ApiApp.respOk, ApiApp.failMsg,
        fireDueTimers_tasks]
    · simp [ApiApp.addTask, Routes.postTasks, h, ApiApp.respOk, ApiApp.failMsg]
  · intro s title now
    constructor
    · simp [ApiApp.addTask, fireDueTimers_tasks]
    · simp [ApiApp.addTask]

/-- Witness for C5 at the two concrete blank titles from the spec. -/
theorem addTask_validation_and_failure_witness :
    ((ApiApp.addTask initState "" 1 true).1.tasks = initState.tasks ∧
      (ApiApp.addTask initState "" 1 true).2 = some "Title is required") ∧
    ((ApiApp.addTask initState "   " 2 true).1.tasks = initState.tasks ∧
      (ApiApp.addTask initState "   " 2 true).2 = some "Title is required") ∧
    ((ApiApp.addTask initState "x" 3 false).1.tasks = initState.tasks ∧
      (ApiApp.addTask initState "x" 3 false).2 = some "Failed to fetch") :=
  ⟨addTask_validation_and_failure.1 initState "" 1 (by decide),
   addTask_validation_and_failure.1 initState "   " 2 (by decide),
   addTask_validation_and_failure.2 initState "x" 3⟩

end ToDoList

namespace ToDoList

/-! ### Concrete fixtures -/

def taskA : Task := ⟨1, "a", false, 1⟩

def taskB : Task := ⟨2, "b", false, 2⟩

def rowA : Row := ⟨1, "a", false, 1, 1⟩

def rowB : Row := ⟨2, "b", false, 2, 2⟩

def twoTaskState : ApiState := ⟨[taskA, taskB], none, -1, [rowA, rowB], []⟩

def oneTaskState : ApiState := ⟨[taskA], none, -1, [rowA], []⟩

def pendingState : ApiState := ⟨[taskB], some taskA, 0, [rowB], []⟩

/-! ### Small Bool helpers -/

theorem any_id_eq_false {table : List Row} {n : Nat}
    (h : ∀ r ∈ table, r.id ≠ n) :
    table.any (fun r => r.id = n) = false := by
  rw [List.any_eq_false]
  intro r hr
  simpa using h r hr

/-- Counterexample to claim C1: delete id 1 at t=10 (countdown fires at 5010)
and id 2 at t=20 (countdown fires at 5020); the first countdown's callback
clears the second delete's pending-undo record without checking it is its
own, so UndoDelete at t=5015 — after the first countdown, before the second —
restores nothing instead of restoring task 2. -/
theorem undoDelete_after_first_countdown_counterexample :
    (ApiApp.undoDelete
        (ApiApp.deleteTask (ApiApp.deleteTask twoTaskState 1 10 true).1 2 20 true).1
        5015 true).1.tasks = [] ∧
    (ApiApp.undoDelete
        (ApiApp.deleteTask (ApiApp.deleteTask twoTaskState 1 10 true).1 2 20 true).1
        5015 true).1.deletedTask = none := by
  decide

/-- Amended claim C1: the countdown's expiry callback clears the pending-undo
record unconditionally, without checking whether it is the record the
countdown was scheduled for; hence once any scheduled countdown is due, the
pending record is gone and UndoDelete leaves the task sequence unchanged. -/
theorem expired_countdown_clears_pending_unconditionally
    (s : ApiState) (now : Nat) (netOk : Bool)
    (h : ∃ tm ∈ s.timers, tm ≤ now) :
    (fireDueTimers s now).deletedTask = none ∧
    (ApiApp.undoDelete s now netOk).1.tasks = s.tasks ∧
    (ApiApp.undoDelete s now netOk).1.deletedTask = none := by
  have h1 := fireDueTimers_deletedTask_none s now h
  refine ⟨h1, ?_, ?_⟩
  · simp only [ApiApp.undoDelete, h1]
    exact fireDueTimers_tasks s now
  · simp only [ApiApp.undoDelete, h1]

/-- Witness for the amended C1: a state whose single countdown (fire time
5010) is due at t=6000. -/
theorem expired_countdown_clears_pending_witness :
    (fireDueTimers ⟨[taskB], some taskA, 0, [rowB], [5010]⟩ 6000).deletedTask = none ∧
    (ApiApp.undoDelete ⟨[taskB], some taskA, 0, [rowB], [5010]⟩ 6000 true).1.tasks =
      [taskB] ∧
    (ApiApp.undoDelete ⟨[taskB], some taskA, 0, [rowB], [5010]⟩ 6000 true).1.deletedTask =
      none :=
  expired_countdown_clears_pending_unconditionally
    ⟨[taskB], some taskA, 0, [rowB], [5010]⟩ 6000 true (by decide)

/-- Counterexample to claim C2: after a Delete whose backend call fails the
captured task is reinserted (rollback), but the pending-undo record is NOT
cleared — it still holds the captured task, and a subsequent UndoDelete
re-creates it, growing the sequence to two copies. -/
theorem deleteTask_failure_keeps_pending_counterexample :
    (ApiApp.deleteTask oneTaskState 1 10 false).1.tasks = [taskA] ∧
    (ApiApp.deleteTask oneTaskState 1 10 false).1.deletedTask = some taskA ∧
    (ApiApp.undoDelete (ApiApp.deleteTask oneTaskState 1 10 false).1
        20 true).1.tasks.length = 2 := by
  decide

/-- Amended claim C2: when the backend delete fails, the captured task is
reinserted at its captured position (the sequence equals the sequence before
the Delete) and the failure is surfaced, but the pending-undo record is not
cleared, so an undo remains possible. -/
theorem deleteTask_failure_rollback (s : ApiState) (id : Nat) (now : Nat)
    (h : ∃ t ∈ s.tasks, t.id = id) :
    (ApiApp.deleteTask s id now false).1.tasks = s.tasks ∧
    (ApiApp.deleteTask s id now false).2 = some "Failed to fetch" ∧
    (ApiApp.deleteTask s id now false).1.deletedTask ≠ none := by
  rcases h with ⟨t0, ht0, hid⟩
  have ht0' : t0 ∈ (fireDueTimers s now).tasks := by
    rw [fireDueTimers_tasks]; exact ht0
  have hp : (fun t : Task => decide (t.id = id)) t0 = true := by simp [hid]
  rcases @findIndexO_isSome_of_mem Task (fun t => decide (t.id = id))
      (fireDueTimers s now).tasks t0 ht0' hp with ⟨i, hi⟩
  rcases findIndexO_some hi with ⟨task, htask, hptask⟩
  have hneg : ¬ ((i : Int) = -1) := by omega
  have hsplice := spliceInsert_eraseIdx (fireDueTimers s now).tasks i task htask
  rw [fireDueTimers_tasks] at hi htask hsplice
  refine ⟨?_, ?_, ?_⟩ <;>
    simp [ApiApp.deleteTask, hi, htask, ApiApp.restoreOnError, hneg, hsplice,
      fireDueTimers_tasks]

/-- Witness for the amended C2 on a concrete one-task state. -/
theorem deleteTask_failure_rollback_witness :
    (ApiApp.deleteTask oneTaskState 1 10 false).1.tasks = oneTaskState.tasks ∧
    (ApiApp.deleteTask oneTaskState 1 10 false).2 = some "Failed to fetch" ∧
    (ApiApp.deleteTask oneTaskState 1 10 false).1.deletedTask ≠ none :=
  deleteTask_failure_rollback oneTaskState 1 10 (by decide)

end ToDoList

namespace ToDoList

/-- Claim C3: UndoDelete is a no-op without a pending-undo record; otherwise
it re-creates a task through the Add route using the record's title, splices
the new canonical record in at the captured sequence position, and clears the
record — the restored task keeps the title, has isDone false, and (with a
fresh creation time) a different id than the deleted task. -/
theorem undoDelete_spec (s : ApiState) (now : Nat) :
    ((fireDueTimers s now).deletedTask = none →
      (ApiApp.undoDelete s now true).1 = fireDueTimers s now ∧
      (ApiApp.undoDelete s now true).2 = none) ∧
    (∀ dt, (fireDueTimers s now).deletedTask = some dt →
      jsTrim dt.title = dt.title → dt.title ≠ "" →
      (∀ r ∈ s.table, r.id ≠ now) → dt.id ≠ now →
      (ApiApp.undoDelete s now true).1.tasks =
        spliceInsert (fireDueTimers s now).tasks
          (fireDueTimers s now).deletedTaskIndex (⟨now, dt.title, false, now⟩ : Task) ∧
      (ApiApp.undoDelete s now true).1.deletedTask = none ∧
      (ApiApp.undoDelete s now true).1.deletedTaskIndex = -1 ∧
      (ApiApp.undoDelete s now true).2 = none ∧
      (⟨now, dt.title, false, now⟩ : Task).id ≠ dt.id) := by
  constructor
  · intro h
    constructor
    · simp only [ApiApp.undoDelete, h]
    · simp only [ApiApp.undoDelete, h]
  · intro dt h htrim hne hfresh hid
    have htrimne : ¬ jsTrim dt.title = "" := by rw [htrim]; exact hne
    have hany : s.table.any (fun r => r.id = now) = false := any_id_eq_false hfresh
    have hany2 : (fireDueTimers s now).table.any (fun r => r.id = now) = false := by
      rw [fireDueTimers_table]; exact hany
    have hpost : Routes.postTasks (fireDueTimers s now).table (some dt.title) now =
        ((fireDueTimers s now).table ++ [⟨now, jsTrim dt.title, false, now, now⟩],
         ⟨201, true, some ⟨now, jsTrim dt.title, false, now⟩, none⟩) := by
      simp [Routes.postTasks, htrimne, hany2, Row.toTask]
    refine ⟨?_, ?_, ?_, ?_, fun hcon => hid (by simpa using hcon.symm)⟩ <;>
      simp [ApiApp.undoDelete, h, hpost, ApiApp.respOk, htrim]

end ToDoList

namespace ToDoList

/-- Witness for C3: the no-op case on a fresh session and the re-creation
case on a pending-undo state (taskA deleted from position 0, undone at t=50). -/
theorem undoDelete_spec_witness :
    ((ApiApp.undoDelete initState 5 true).1 = fireDueTimers initState 5 ∧
      (ApiApp.undoDelete initState 5 true).2 = none) ∧
    ((ApiApp.undoDelete pendingState 50 true).1.tasks =
        spliceInsert (fireDueTimers pendingState 50).tasks
          (fireDueTimers pendingState 50).deletedTaskIndex
          (⟨50, taskA.title, false, 50⟩ : Task) ∧
      (ApiApp.undoDelete pendingState 50 true).1.deletedTask = none ∧
      (ApiApp.undoDelete pendingState 50 true).1.deletedTaskIndex = -1 ∧
      (ApiApp.undoDelete pendingState 50 true).2 = none ∧
      (⟨50, taskA.title, false, 50⟩ : Task).id ≠ taskA.id) :=
  ⟨(undoDelete_spec initState 5).1 (by decide),
   (undoDelete_spec pendingState 50).2 taskA (by decide) (by decide) (by decide)
     (by decide) (by decide)⟩

end ToDoList

namespace ToDoList

/-! ### Helpers for comparing the two persistence variants -/

theorem mem_of_getElem?_some {α : Type} {l : List α} {n : Nat} {a : α}
    (h : l[n]? = some a) : a ∈ l := by
  rcases List.getElem?_eq_some.mp h with ⟨hlt, he⟩
  exact he ▸ List.getElem_mem hlt

theorem find?_id_isSome {table : List Row} {id : Nat}
    (h : ∃ r ∈ table, r.id = id) :
    ∃ r1, table.find? (fun r => r.id = id) = some r1 ∧ r1.id = id := by
  rcases h with ⟨r0, hr0, hr0id⟩
  cases hf : table.find? (fun r => r.id = id) with
  | none =>
    exact absurd (by simpa using hr0id) (List.find?_eq_none.mp hf r0 hr0)
  | some r1 =>
    exact ⟨r1, rfl, by simpa using List.find?_some hf⟩

theorem putTask_found (table : List Row) (id : Nat) (body : Routes.PutBody)
    (now : Nat) (hid : ∃ r ∈ table, r.id = id) :
    ∃ r1, table.find? (fun r => r.id = id) = some r1 ∧ r1.id = id ∧
      Routes.putTask table id body now =
        (table.map (Routes.updRow id body now),
         ⟨200, true, some (Routes.updRow id body now r1).toTask, none⟩) := by
  rcases find?_id_isSome hid with ⟨r1, hr1, hr1id⟩
  refine ⟨r1, hr1, hr1id, ?_⟩
  have hmap : (table.map (Routes.updRow id body now)).find?
      (fun r => r.id = id) = some (Routes.updRow id body now r1) := by
    rw [find?_map_pred _ _ (fun x => by rw [updRow_id]) table, hr1, Option.map_some']
  simp only [Routes.putTask, hmap]

theorem putTask_not_found (table : List Row) (id : Nat) (body : Routes.PutBody)
    (now : Nat) (h : table.find? (fun r => r.id = id) = none) :
    Routes.putTask table id body now =
      (table.map (Routes.updRow id body now),
       ⟨404, false, none, some "Task not found"⟩) := by
  have hmap : (table.map (Routes.updRow id body now)).find?
      (fun r => r.id = id) = none := by
    rw [find?_map_pred _ _ (fun x => by rw [updRow_id]) table, h, Option.map_none']
  simp only [Routes.putTask, hmap]

theorem deleteTask_route_found (table : List Row) (id : Nat)
    (hid : ∃ r ∈ table, r.id = id) :
    ∃ r1 : Row, Routes.deleteTask table id =
      (table.filter (fun r2 => r2.id != id), ⟨200, true, some r1.toTask, none⟩) := by
  rcases find?_id_isSome hid with ⟨r1, hr1, _⟩
  exact ⟨r1, by simp only [Routes.deleteTask, hr1]⟩

def taskAd : Task := ⟨1, "a", true, 1⟩

def rowAd : Row := ⟨1, "a", true, 1, 1⟩

def localDone : LocalState := ⟨[taskAd], none, -1, [taskAd]⟩

def apiDone : ApiState := ⟨[taskAd], none, -1, [rowAd], []⟩

/-- Counterexample to claim C4: starting from corresponding states holding
one completed task, the operation sequence Delete(1); UndoDelete() leaves the
localStorage variant with the original task (id 1, isDone true) but the
API variant with a re-created task (fresh id, isDone false): the two
persistence variants do not produce the same in-memory sequence for
UndoDelete. -/
theorem variants_undo_counterexample :
    (LocalApp.undoDelete (LocalApp.deleteTask localDone 1)).tasks = [taskAd] ∧
    (ApiApp.undoDelete (ApiApp.deleteTask apiDone 1 10 true).1 20 true).1.tasks =
      [⟨20, "a", false, 20⟩] ∧
    (LocalApp.undoDelete (LocalApp.deleteTask localDone 1)).tasks ≠
      (ApiApp.undoDelete (ApiApp.deleteTask apiDone 1 10 true).1 20 true).1.tasks := by
  decide

end ToDoList

namespace ToDoList

/-- Amended claim C4: for Add, Toggle, Edit and Delete the localStorage
variant and the relational/API variant produce the same resulting in-memory
task sequence from corresponding states (same in-memory sequence, backend
table containing every in-memory id, fresh creation time for Add); the two
variants differ on UndoDelete, where the localStorage variant restores the
original record while the API variant inserts a re-creation with a fresh id
and isDone false. -/
theorem variants_agree_except_undo (L : LocalState) (A : ApiState)
    (hmem : L.tasks = A.tasks)
    (hsync : ∀ t ∈ A.tasks, ∃ r ∈ A.table, r.id = t.id) :
    (∀ title now, (∀ r ∈ A.table, r.id ≠ now) →
      (LocalApp.addTask L title now).tasks =
        (ApiApp.addTask A title now true).1.tasks) ∧
    (∀ id now, (LocalApp.toggleTask L id).tasks =
      (ApiApp.toggleTask A id now true).1.tasks) ∧
    (∀ id nt now, (LocalApp.editTask L id nt).tasks =
      (ApiApp.editTask A id nt now true).1.tasks) ∧
    (∀ id now, (LocalApp.deleteTask L id).tasks =
      (ApiApp.deleteTask A id now true).1.tasks) := by
  refine ⟨?_, ?_, ?_, ?_⟩
  · -- Add
    intro title now hfresh
    by_cases h : jsTrim title = ""
    · simp [LocalApp.addTask, ApiApp.addTask, Routes.postTasks, h, ApiApp.respOk,
        fireDueTimers_tasks, hmem]
    · have hany : A.table.any (fun r => r.id = now) = false := any_id_eq_false hfresh
      have hpost : Routes.postTasks (fireDueTimers A now).table (some title) now =
          ((fireDueTimers A now).table ++ [⟨now, jsTrim title, false, now, now⟩],
           ⟨201, true, some ⟨now, jsTrim title, false, now⟩, none⟩) := by
        simp [Routes.postTasks, h, fireDueTimers_table, hany, Row.toTask]
      simp [LocalApp.addTask, LocalApp.saveTasks, ApiApp.addTask, h, hpost,
        ApiApp.respOk, fireDueTimers_tasks, hmem]
  · -- Toggle
    intro id now
    have hT : (fireDueTimers A now).tasks = A.tasks := fireDueTimers_tasks A now
    cases hf : A.tasks.find? (fun t => t.id = id) with
    | none =>
      have hfL : L.tasks.find? (fun t => t.id = id) = none := by rw [hmem]; exact hf
      simp [LocalApp.toggleTask, ApiApp.toggleTask, hT, hf, hfL, hmem]
    | some task =>
      have htid : task.id = id := by simpa using List.find?_some hf
      have hmemt : task ∈ A.tasks := List.mem_of_find?_eq_some hf
      rcases hsync task hmemt with ⟨r0, hr0, hr0id⟩
      rcases putTask_found A.table id ⟨none, some (!task.isDone)⟩ now
        ⟨r0, hr0, by rw [hr0id, htid]⟩ with ⟨r1, hr1, hr1id, hput⟩
      have hputA : Routes.putTask (fireDueTimers A now).table id
          ⟨none, some (!task.isDone)⟩ now =
          (A.table.map (Routes.updRow id ⟨none, some (!task.isDone)⟩ now),
           ⟨200, true,
            some (Routes.updRow id ⟨none, some (!task.isDone)⟩ now r1).toTask,
            none⟩) := by
        rw [fireDueTimers_table]; exact hput
      have hdata : (Routes.updRow id ⟨none, some (!task.isDone)⟩ now r1).toTask.isDone
          = !task.isDone := by
        simp [Routes.updRow, Row.toTask, hr1id]
      have hfL : L.tasks.find? (fun t => t.id = id) = some task := by
        rw [hmem]; exact hf
      simp only [LocalApp.toggleTask, LocalApp.saveTasks, ApiApp.toggleTask, hT, hf,
        hfL, hputA, hdata, ApiApp.respOk, hmem]
      norm_num
      exact updateFirst_congr _ _ hf rfl
  · -- Edit
    intro id nt now
    by_cases h : jsTrim nt = ""
    · cases hfA : A.tasks.find? (fun t => t.id = id) with
      | none =>
        have hfL : L.tasks.find? (fun t => t.id = id) = none := by rw [hmem]; exact hfA
        simp [LocalApp.editTask, ApiApp.editTask, h, hfA, hfL, fireDueTimers_tasks, hmem]
      | some task =>
        have hfL : L.tasks.find? (fun t => t.id = id) = some task := by
          rw [hmem]; exact hfA
        simp [LocalApp.editTask, ApiApp.editTask, h, hfA, hfL, fireDueTimers_tasks, hmem]
    · have hT : (fireDueTimers A now).tasks = A.tasks := fireDueTimers_tasks A now
      cases hf : A.tasks.find? (fun t => t.id = id) with
      | none =>
        have hfL : L.tasks.find? (fun t => t.id = id) = none := by rw [hmem]; exact hf
        cases hfT : A.table.find? (fun r => r.id = id) with
        | none =>
          have hput := putTask_not_found A.table id ⟨some nt, none⟩ now hfT
          have hputA : Routes.putTask (fireDueTimers A now).table id
              ⟨some nt, none⟩ now =
              (A.table.map (Routes.updRow id ⟨some nt, none⟩ now),
               ⟨404, false, none, some "Task not found"⟩) := by
            rw [fireDueTimers_table]; exact hput
          simp [LocalApp.editTask, ApiApp.editTask, h, hf, hfL, hputA, ApiApp.respOk,
            hT, hmem]
        | some r1 =>
          rcases putTask_found A.table id ⟨some nt, none⟩ now
            ⟨r1, List.mem_of_find?_eq_some hfT, by simpa using List.find?_some hfT⟩
            with ⟨r2, hr2, hr2id, hput⟩
          have hputA : Routes.putTask (fireDueTimers A now).table id
              ⟨some nt, none⟩ now =
              (A.table.map (Routes.updRow id ⟨some nt, none⟩ now),
               ⟨200, true,
                some (Routes.updRow id ⟨some nt, none⟩ now r2).toTask, none⟩) := by
            rw [fireDueTimers_table]; exact hput
          simp [LocalApp.editTask, ApiApp.editTask, h, hfL, hf, hputA,
            ApiApp.respOk, hT, hmem, updateFirst_of_find?_none _ hf]
      | some task =>
        have htid : task.id = id := by simpa using List.find?_some hf
        have hmemt : task ∈ A.tasks := List.mem_of_find?_eq_some hf
        rcases hsync task hmemt with ⟨r0, hr0, hr0id⟩
        rcases putTask_found A.table id ⟨some nt, none⟩ now
          ⟨r0, hr0, by rw [hr0id, htid]⟩ with ⟨r1, hr1, hr1id, hput⟩
        have hputA : Routes.putTask (fireDueTimers A now).table id
            ⟨some nt, none⟩ now =
            (A.table.map (Routes.updRow id ⟨some nt, none⟩ now),
             ⟨200, true,
              some (Routes.updRow id ⟨some nt, none⟩ now r1).toTask, none⟩) := by
          rw [fireDueTimers_table]; exact hput
        have hdata : (Routes.updRow id ⟨some nt, none⟩ now r1).toTask.title
            = jsTrim nt := by
          simp [Routes.updRow, Row.toTask, hr1id, h]
        have hfL : L.tasks.find? (fun t => t.id = id) = some task := by
          rw [hmem]; exact hf
        simp only [LocalApp.editTask, LocalApp.saveTasks, ApiApp.editTask, hT, hf,
          hfL, hputA, hdata, ApiApp.respOk, hmem, h]
        norm_num
  · -- Delete
    intro id now
    have hT : (fireDueTimers A now).tasks = A.tasks := fireDueTimers_tasks A now
    cases hfi : findIndexO (fun t => t.id = id) A.tasks with
    | none =>
      have hfiL : findIndexO (fun t => t.id = id) L.tasks = none := by
        rw [hmem]; exact hfi
      simp [LocalApp.deleteTask, ApiApp.deleteTask, hT, hfi, hfiL, hmem]
    | some i =>
      rcases findIndexO_some hfi with ⟨task, htask, hptask⟩
      have htid : task.id = id := by simpa using hptask
      have hmemt : task ∈ A.tasks := mem_of_getElem?_some htask
      rcases hsync task hmemt with ⟨r0, hr0, hr0id⟩
      rcases deleteTask_route_found A.table id ⟨r0, hr0, by rw [hr0id, htid]⟩
        with ⟨r1, hdel⟩
      have hdelA : Routes.deleteTask (fireDueTimers A now).table id =
          (A.table.filter (fun r2 => r2.id != id), ⟨200, true, some r1.toTask, none⟩) := by
        rw [fireDueTimers_table]; exact hdel
      have hfiL : findIndexO (fun t => t.id = id) L.tasks = some i := by
        rw [hmem]; exact hfi
      have htaskL : L.tasks[i]? = some task := by rw [hmem]; exact htask
      simp [LocalApp.deleteTask, LocalApp.saveTasks, ApiApp.deleteTask, hT, hfi,
        htask, hfiL, htaskL, hdelA, ApiApp.respOk, hmem]

end ToDoList

namespace ToDoList

def localOne : LocalState := ⟨[taskA], none, -1, [taskA]⟩

/-- Witness for the amended C4 on a concrete one-task pair of states. -/
theorem variants_agree_except_undo_witness :
    (LocalApp.addTask localOne "new" 7).tasks =
      (ApiApp.addTask oneTaskState "new" 7 true).1.tasks ∧
    (LocalApp.toggleTask localOne 1).tasks =
      (ApiApp.toggleTask oneTaskState 1 7 true).1.tasks ∧
    (LocalApp.editTask localOne 1 "edited").tasks =
      (ApiApp.editTask oneTaskState 1 "edited" 7 true).1.tasks ∧
    (LocalApp.deleteTask localOne 1).tasks =
      (ApiApp.deleteTask oneTaskState 1 7 true).1.tasks := by
  have h := variants_agree_except_undo localOne oneTaskState (by decide) (by decide)
  exact ⟨h.1 "new" 7 (by decide), h.2.1 1 7, h.2.2.1 1 "edited" 7, h.2.2.2 1 7⟩

end ToDoList

namespace ToDoList

/-! ### Successful Add and order preservation -/

theorem addTask_success (s : ApiState) (title : String) (now : Nat)
    (hne : jsTrim title ≠ "") (hfresh : ∀ r ∈ s.table, r.id ≠ now) :
    (ApiApp.addTask s title now true).1.tasks =
      (⟨now, jsTrim title, false, now⟩ : Task) :: s.tasks ∧
    (ApiApp.addTask s title now true).1.table =
      s.table ++ [⟨now, jsTrim title, false, now, now⟩] := by
  have hany : s.table.any (fun r => r.id = now) = false := any_id_eq_false hfresh
  have hpost : Routes.postTasks s.table (some title) now =
      (s.table ++ [⟨now, jsTrim title, false, now, now⟩],
       ⟨201, true, some ⟨now, jsTrim title, false, now⟩, none⟩) := by
    simp [Routes.postTasks, hne, hany, Row.toTask]
  constructor <;>
    simp [ApiApp.addTask, fireDueTimers_tasks, fireDueTimers_table, hpost,
      ApiApp.respOk]

theorem toggleTask_tasks_cases (s : ApiState) (id now : Nat) (ok : Bool) :
    (ApiApp.toggleTask s id now ok).1.tasks = s.tasks ∨
    ∃ b, (ApiApp.toggleTask s id now ok).1.tasks =
      updateFirst (fun t => t.id = id) (fun t => { t with isDone := b }) s.tasks := by
  simp only [ApiApp.toggleTask]
  split
  · left; exact fireDueTimers_tasks s now
  · split
    · left; exact fireDueTimers_tasks s now
    · split
      · left; exact fireDueTimers_tasks s now
      · split
        · left; exact fireDueTimers_tasks s now
        · split
          · right; exact ⟨_, by rw [fireDueTimers_tasks]⟩
          · left; exact fireDueTimers_tasks s now

theorem editTask_tasks_cases (s : ApiState) (id : Nat) (nt : String) (now : Nat)
    (ok : Bool) :
    (ApiApp.editTask s id nt now ok).1.tasks = s.tasks ∨
    ∃ ti, (ApiApp.editTask s id nt now ok).1.tasks =
      updateFirst (fun t => t.id = id) (fun t => { t with title := ti }) s.tasks := by
  simp only [ApiApp.editTask]
  split
  · left; exact fireDueTimers_tasks s now
  · split
    · left; exact fireDueTimers_tasks s now
    · split
      · left; exact fireDueTimers_tasks s now
      · split
        · left; exact fireDueTimers_tasks s now
        · split
          · right; exact ⟨_, by rw [fireDueTimers_tasks]⟩
          · left; exact fireDueTimers_tasks s now

theorem toggleTask_map_id (s : ApiState) (id now : Nat) (ok : Bool) :
    ((ApiApp.toggleTask s id now ok).1.tasks).map (fun t => t.id) =
      s.tasks.map (fun t => t.id) := by
  rcases toggleTask_tasks_cases s id now ok with h | ⟨b, h⟩
  · rw [h]
  · rw [h]
    exact map_updateFirst (fun t => decide (t.id = id))
      (fun t => { t with isDone := b }) (fun t => t.id) (fun x => rfl) s.tasks

theorem editTask_map_id (s : ApiState) (id : Nat) (nt : String) (now : Nat)
    (ok : Bool) :
    ((ApiApp.editTask s id nt now ok).1.tasks).map (fun t => t.id) =
      s.tasks.map (fun t => t.id) := by
  rcases editTask_tasks_cases s id nt now ok with h | ⟨ti, h⟩
  · rw [h]
  · rw [h]
    exact map_updateFirst (fun t => decide (t.id = id))
      (fun t => { t with title := ti }) (fun t => t.id) (fun x => rfl) s.tasks

/-- The canonical record created by a successful Add at time it.2 with raw
title it.1. -/
def mkAdded (it : String × Nat) : Task :=
  ⟨it.2, jsTrim it.1, false, it.2⟩

/-- A trace consisting only of Add operations, at the given times, all with a
working transport. -/
def addEvents (items : List (String × Nat)) : List (Op × Nat × Bool) :=
  items.map (fun it => (Op.add it.1, it.2, true))

theorem runTrace_adds :
    ∀ (items : List (String × Nat)) (s : ApiState) (c : Nat),
      (∀ r ∈ s.table, r.id < c) → TimesOk c (addEvents items) = true →
      (∀ it ∈ items, jsTrim it.1 ≠ "") →
      (runTrace s (addEvents items)).tasks =
        (items.map mkAdded).reverse ++ s.tasks := by
  intro items
  induction items with
  | nil => intro s c _ _ _; rfl
  | cons it rest ih =>
    intro s c hbound htimes htitles
    have htimes' : (decide (c ≤ it.2) && TimesOk (it.2 + 1) (addEvents rest)) = true :=
      htimes
    rw [Bool.and_eq_true] at htimes'
    have hc : c ≤ it.2 := by simpa using htimes'.1
    have hne : jsTrim it.1 ≠ "" := htitles it (List.mem_cons_self it rest)
    have hfresh : ∀ r ∈ s.table, r.id ≠ it.2 := by
      intro r hr
      have := hbound r hr
      omega
    have hstep := addTask_success s it.1 it.2 hne hfresh
    have hbound2 : ∀ r ∈ (ApiApp.addTask s it.1 it.2 true).1.table,
        r.id < it.2 + 1 := by
      intro r hr
      rw [hstep.2] at hr
      rcases List.mem_append.mp hr with h | h
      · have := hbound r h
        omega
      · simp only [List.mem_singleton] at h
        subst h
        exact Nat.lt_succ_self it.2
    have hrest := ih (ApiApp.addTask s it.1 it.2 true).1 (it.2 + 1) hbound2
      htimes'.2 (fun x hx => htitles x (List.mem_cons_of_mem it hx))
    show (runTrace (ApiApp.addTask s it.1 it.2 true).1 (addEvents rest)).tasks = _
    rw [hrest, hstep.1]
    simp [mkAdded]

/-- Claim C8: a sequence of successful Adds with non-blank titles from a
fresh session produces exactly one task per add, most recent first (each new
task prepended), and neither Toggle nor Edit reorders the sequence (the id
sequence is unchanged). -/
theorem add_sequence_order :
    (∀ items : List (String × Nat),
      (∀ it ∈ items, jsTrim it.1 ≠ "") → TimesOk 0 (addEvents items) = true →
      (runTrace initState (addEvents items)).tasks = (items.map mkAdded).reverse ∧
      (runTrace initState (addEvents items)).tasks.length = items.length) ∧
    (∀ (s : ApiState) (id now : Nat) (ok : Bool),
      ((ApiApp.toggleTask s id now ok).1.tasks).map (fun t => t.id) =
        s.tasks.map (fun t => t.id)) ∧
    (∀ (s : ApiState) (id : Nat) (nt : String) (now : Nat) (ok : Bool),
      ((ApiApp.editTask s id nt now ok).1.tasks).map (fun t => t.id) =
        s.tasks.map (fun t => t.id)) := by
  refine ⟨?_, toggleTask_map_id, editTask_map_id⟩
  intro items htitles htimes
  have h := runTrace_adds items initState 0 (by intro r hr; simp [initState] at hr)
    htimes htitles
  have h2 : (runTrace initState (addEvents items)).tasks =
      (items.map mkAdded).reverse := by simpa [initState] using h
  exact ⟨h2, by rw [h2]; simp⟩

/-- Witness for C8: two adds at times 4 and 9, then a toggle and an edit. -/
theorem add_sequence_order_witness :
    ((runTrace initState (addEvents [("milk ", 4), ("eggs", 9)])).tasks =
      ([("milk ", 4), ("eggs", 9)].map mkAdded).reverse ∧
     (runTrace initState (addEvents [("milk ", 4), ("eggs", 9)])).tasks.length = 2) ∧
    ((ApiApp.toggleTask oneTaskState 1 7 true).1.tasks).map (fun t => t.id) =
      oneTaskState.tasks.map (fun t => t.id) ∧
    ((ApiApp.editTask oneTaskState 1 "x" 7 true).1.tasks).map (fun t => t.id) =
      oneTaskState.tasks.map (fun t => t.id) := by
  have h := add_sequence_order
  exact ⟨h.1 [("milk ", 4), ("eggs", 9)] (by decide) (by decide),
    h.2.1 oneTaskState 1 7 true, h.2.2 oneTaskState 1 "x" 7 true⟩

end ToDoList

namespace ToDoList

/-! ### Title invariant -/

/-- A stored title: trimmed and non-empty. -/
def TOk (ti : String) : Prop := jsTrim ti = ti ∧ ti ≠ ""

/-- Every in-memory task title is trimmed and non-empty. -/
def TOkTasks (l : List Task) : Prop := ∀ t ∈ l, TOk t.title

/-- Every table row title is trimmed and non-empty. -/
def TOkTable (l : List Row) : Prop := ∀ r ∈ l, TOk r.title

/-- The title invariant of a session state. -/
def TitlesInv (s : ApiState) : Prop := TOkTasks s.tasks ∧ TOkTable s.table

theorem TOk_jsTrim {x : String} (h : jsTrim x ≠ "") : TOk (jsTrim x) :=
  ⟨jsTrim_idem x, h⟩

theorem updRow_TOk (id : Nat) (body : Routes.PutBody) (now : Nat) (r : Row)
    (h : TOk r.title) : TOk (Routes.updRow id body now r).title := by
  unfold Routes.updRow
  split
  · cases hbt : body.title with
    | none => cases body.isDone <;> simpa using h
    | some t =>
      by_cases ht : jsTrim t = ""
      · cases body.isDone <;> simp [ht] <;> simpa using h
      · cases body.isDone <;> simp [ht] <;> exact TOk_jsTrim ht
  · exact h

theorem postTasks_table_TOk {table : List Row} {ti : Option String} {now : Nat}
    (h : TOkTable table) : TOkTable (Routes.postTasks table ti now).1 := by
  cases ti with
  | none => exact h
  | some t =>
    by_cases ht : jsTrim t = ""
    · simpa [Routes.postTasks, ht] using h
    · by_cases ha : table.any (fun r => r.id = now)
      · simpa [Routes.postTasks, ht, ha] using h
      · have ha' : table.any (fun r => r.id = now) = false := by simpa using ha
        have he : (Routes.postTasks table (some t) now).1 =
            table ++ [⟨now, jsTrim t, false, now, now⟩] := by
          simp [Routes.postTasks, ht, ha']
        rw [he]
        intro r hr
        rcases List.mem_append.mp hr with h1 | h1
        · exact h r h1
        · simp only [List.mem_singleton] at h1
          subst h1
          exact TOk_jsTrim ht

theorem postTasks_data_TOk {table : List Row} {ti : Option String} {now : Nat}
    {t : Task} (h : (Routes.postTasks table ti now).2.data = some t) :
    TOk t.title := by
  cases ti with
  | none => simp [Routes.postTasks] at h
  | some x =>
    by_cases ht : jsTrim x = ""
    · simp [Routes.postTasks, ht] at h
    · by_cases ha : table.any (fun r => r.id = now)
      · simp [Routes.postTasks, ht, ha] at h
      · have ha' : table.any (fun r => r.id = now) = false := by simpa using ha
        have he : (Routes.postTasks table (some x) now).2 =
            ⟨201, true, some ⟨now, jsTrim x, false, now⟩, none⟩ := by
          simp [Routes.postTasks, ht, ha', Row.toTask]
        rw [he] at h
        simp only [Option.some.injEq] at h
        rw [← h]
        exact TOk_jsTrim ht

theorem putTask_table_TOk {table : List Row} {id : Nat} {body : Routes.PutBody}
    {now : Nat} (h : TOkTable table) :
    TOkTable (Routes.putTask table id body now).1 := by
  have hmap : TOkTable (table.map (Routes.updRow id body now)) := by
    intro r hr
    rcases List.mem_map.mp hr with ⟨r0, hr0, he⟩
    exact he ▸ updRow_TOk id body now r0 (h r0 hr0)
  simp only [Routes.putTask]
  split <;> exact hmap

theorem putTask_data_TOk {table : List Row} {id : Nat} {body : Routes.PutBody}
    {now : Nat} {td : Task} (h : TOkTable table)
    (hd : (Routes.putTask table id body now).2.data = some td) : TOk td.title := by
  simp only [Routes.putTask] at hd
  split at hd
  · next r heq =>
    simp only [Option.some.injEq] at hd
    have hr : r ∈ table.map (Routes.updRow id body now) :=
      List.mem_of_find?_eq_some heq
    rcases List.mem_map.mp hr with ⟨r0, hr0, he⟩
    have : TOk r.title := he ▸ updRow_TOk id body now r0 (h r0 hr0)
    rw [← hd]
    exact this
  · simp at hd

theorem deleteTask_table_TOk {table : List Row} {id : Nat} (h : TOkTable table) :
    TOkTable (Routes.deleteTask table id).1 := by
  unfold Routes.deleteTask
  split
  · intro r hr
    exact h r (List.mem_of_mem_filter hr)
  · exact h

theorem mem_spliceInsert {α : Type} {l : List α} {i : Int} {a x : α}
    (h : x ∈ spliceInsert l i a) : x = a ∨ x ∈ l := by
  have := (spliceInsert_perm l i a).mem_iff.mp h
  simpa using this

theorem mem_of_mem_eraseIdx {α : Type} {l : List α} {i : Nat} {x : α}
    (h : x ∈ l.eraseIdx i) : x ∈ l :=
  (List.eraseIdx_sublist l i).mem h

theorem titlesInv_fireDueTimers {s : ApiState} (now : Nat) (h : TitlesInv s) :
    TitlesInv (fireDueTimers s now) := by
  constructor
  · rw [show (fireDueTimers s now).tasks = s.tasks from fireDueTimers_tasks s now]
    exact h.1
  · rw [show (fireDueTimers s now).table = s.table from fireDueTimers_table s now]
    exact h.2

end ToDoList

namespace ToDoList

theorem titlesInv_addTask (s : ApiState) (title : String) (now : Nat) (ok : Bool)
    (h : TitlesInv s) : TitlesInv (ApiApp.addTask s title now ok).1 := by
  have h' := titlesInv_fireDueTimers now h
  simp only [ApiApp.addTask]
  split
  · exact h'
  · split
    · exact ⟨h'.1, postTasks_table_TOk h'.2⟩
    · split
      · exact ⟨h'.1, postTasks_table_TOk h'.2⟩
      · split
        · next t heq =>
          refine ⟨?_, postTasks_table_TOk h'.2⟩
          intro x hx
          rcases List.mem_cons.mp hx with h1 | h1
          · exact h1 ▸ postTasks_data_TOk heq
          · exact h'.1 x h1
        · exact ⟨h'.1, postTasks_table_TOk h'.2⟩

theorem titlesInv_toggleTask (s : ApiState) (id now : Nat) (ok : Bool)
    (h : TitlesInv s) : TitlesInv (ApiApp.toggleTask s id now ok).1 := by
  have h' := titlesInv_fireDueTimers now h
  simp only [ApiApp.toggleTask]
  split
  · exact h'
  · split
    · exact h'
    · split
      · exact ⟨h'.1, putTask_table_TOk h'.2⟩
      · split
        · exact ⟨h'.1, putTask_table_TOk h'.2⟩
        · split
          · next td heq =>
            refine ⟨?_, putTask_table_TOk h'.2⟩
            intro x hx
            rcases mem_updateFirst hx with h1 | ⟨y, hy, hxy⟩
            · exact h'.1 x h1
            · subst hxy
              exact h'.1 y hy
          · exact ⟨h'.1, putTask_table_TOk h'.2⟩

theorem titlesInv_editTask (s : ApiState) (id : Nat) (nt : String) (now : Nat)
    (ok : Bool) (h : TitlesInv s) : TitlesInv (ApiApp.editTask s id nt now ok).1 := by
  have h' := titlesInv_fireDueTimers now h
  simp only [ApiApp.editTask]
  split
  · exact h'
  · split
    · exact h'
    · split
      · exact ⟨h'.1, putTask_table_TOk h'.2⟩
      · split
        · exact ⟨h'.1, putTask_table_TOk h'.2⟩
        · split
          · next td heq =>
            refine ⟨?_, putTask_table_TOk h'.2⟩
            intro x hx
            rcases mem_updateFirst hx with h1 | ⟨y, hy, hxy⟩
            · exact h'.1 x h1
            · subst hxy
              exact show TOk td.title from putTask_data_TOk h'.2 heq
          · exact ⟨h'.1, putTask_table_TOk h'.2⟩

theorem titlesInv_deleteTask (s : ApiState) (id now : Nat) (ok : Bool)
    (h : TitlesInv s) : TitlesInv (ApiApp.deleteTask s id now ok).1 := by
  have h' := titlesInv_fireDueTimers now h
  cases hidx : findIndexO (fun t => t.id = id) (fireDueTimers s now).tasks with
  | none =>
    simp only [ApiApp.deleteTask, hidx]
    exact h'
  | some index =>
    cases htask : (fireDueTimers s now).tasks[index]? with
    | none =>
      simp only [ApiApp.deleteTask, hidx, htask]
      exact h'
    | some task =>
      have htaskOk : TOk task.title := h'.1 task (mem_of_getElem?_some htask)
      have herase : TOkTasks ((fireDueTimers s now).tasks.eraseIdx index) :=
        fun x hx => h'.1 x (mem_of_mem_eraseIdx hx)
      have hrest : TOkTasks (spliceInsert
          ((fireDueTimers s now).tasks.eraseIdx index) (index : Int) task) := by
        intro x hx
        rcases mem_spliceInsert hx with h1 | h1
        · exact h1 ▸ htaskOk
        · exact herase x h1
      have hneg : ¬ ((index : Int) = -1) := by omega
      simp only [ApiApp.deleteTask, hidx, htask, ApiApp.restoreOnError,
        if_neg hneg]
      split
      · exact ⟨hrest, h'.2⟩
      · split
        · exact ⟨hrest, deleteTask_table_TOk h'.2⟩
        · exact ⟨herase, deleteTask_table_TOk h'.2⟩

theorem titlesInv_undoDelete (s : ApiState) (now : Nat) (ok : Bool)
    (h : TitlesInv s) : TitlesInv (ApiApp.undoDelete s now ok).1 := by
  have h' := titlesInv_fireDueTimers now h
  simp only [ApiApp.undoDelete]
  split
  · exact h'
  · split
    · exact h'
    · split
      · exact ⟨h'.1, postTasks_table_TOk h'.2⟩
      · split
        · exact ⟨h'.1, postTasks_table_TOk h'.2⟩
        · split
          · next t heq =>
            refine ⟨?_, postTasks_table_TOk h'.2⟩
            intro x hx
            rcases mem_spliceInsert hx with h1 | h1
            · exact h1 ▸ postTasks_data_TOk heq
            · exact h'.1 x h1
          · exact ⟨h'.1, postTasks_table_TOk h'.2⟩

theorem titlesInv_applyOp (s : ApiState) (op : Op) (now : Nat) (ok : Bool)
    (h : TitlesInv s) : TitlesInv (applyOp s op now ok) := by
  cases op with
  | add t => exact titlesInv_addTask s t now ok h
  | toggle id => exact titlesInv_toggleTask s id now ok h
  | edit id t => exact titlesInv_editTask s id t now ok h
  | del id => exact titlesInv_deleteTask s id now ok h
  | undo => exact titlesInv_undoDelete s now ok h

theorem titlesInv_runTrace :
    ∀ (tr : List (Op × Nat × Bool)) (s : ApiState),
      TitlesInv s → TitlesInv (runTrace s tr) := by
  intro tr
  induction tr with
  | nil => intro s h; exact h
  | cons e rest ih =>
    intro s h
    exact ih _ (titlesInv_applyOp s e.1 e.2.1 e.2.2 h)

/-- Claim C7: in every state reachable by a session from a fresh start, every
task title (in memory and in the table) is trimmed and non-empty, and a
create or edit with an empty-after-trim input is rejected before any
mutation. -/
theorem titles_never_blank :
    (∀ tr : List (Op × Nat × Bool), TitlesInv (runTrace initState tr)) ∧
    (∀ (s : ApiState) (id : Nat) (nt : String) (now : Nat) (ok : Bool),
      jsTrim nt = "" → (ApiApp.editTask s id nt now ok).1.tasks = s.tasks ∧
        (ApiApp.editTask s id nt now ok).1.table = s.table) ∧
    (∀ (s : ApiState) (t : String) (now : Nat), jsTrim t = "" →
      (ApiApp.addTask s t now true).1.tasks = s.tasks ∧
      (ApiApp.addTask s t now true).1.table = s.table) := by
  refine ⟨?_, ?_, ?_⟩
  · intro tr
    refine titlesInv_runTrace tr initState ⟨?_, ?_⟩ <;>
      intro x hx <;> simp [initState] at hx
  · intro s id nt now ok h
    constructor <;>
      simp [ApiApp.editTask, h, fireDueTimers_tasks, fireDueTimers_table]
  · intro s t now h
    constructor <;>
      simp [ApiApp.addTask, Routes.postTasks, h, ApiApp.respOk,
        fireDueTimers_tasks, fireDueTimers_table]

/-- Witness for C7: a concrete session (add, edit, delete, undo) and a
rejected blank edit and blank add. -/
theorem titles_never_blank_witness :
    TitlesInv (runTrace initState
      [(Op.add " milk ", 1, true), (Op.edit 1 " eggs ", 3, true),
       (Op.del 1, 5, true), (Op.undo, 7, true)]) ∧
    ((ApiApp.editTask oneTaskState 1 "  " 9 true).1.tasks = oneTaskState.tasks ∧
      (ApiApp.editTask oneTaskState 1 "  " 9 true).1.table = oneTaskState.table) ∧
    ((ApiApp.addTask oneTaskState "  " 9 true).1.tasks = oneTaskState.tasks ∧
      (ApiApp.addTask oneTaskState "  " 9 true).1.table = oneTaskState.table) :=
  ⟨titles_never_blank.1 _,
   titles_never_blank.2.1 oneTaskState 1 "  " 9 true (by decide),
   titles_never_blank.2.2 oneTaskState "  " 9 (by decide)⟩

end ToDoList

namespace ToDoList

/-! ### Id uniqueness invariant -/

/-- The id sequence of the in-memory array. -/
def idsOf (l : List Task) : List Nat := l.map (fun t => t.id)

/-- The id sequence of the table. -/
def rowIds (l : List Row) : List Nat := l.map (fun r => r.id)

/-- Session invariant: no duplicate ids in memory or in the table, and every
id is an earlier clock value than c. -/
def IdInv (s : ApiState) (c : Nat) : Prop :=
  (idsOf s.tasks).Nodup ∧ (rowIds s.table).Nodup ∧
  (∀ x ∈ idsOf s.tasks, x < c) ∧ (∀ x ∈ rowIds s.table, x < c)

theorem idInv_mono {s : ApiState} {c c2 : Nat} (h : IdInv s c) (hc : c ≤ c2) :
    IdInv s c2 :=
  ⟨h.1, h.2.1, fun x hx => Nat.lt_of_lt_of_le (h.2.2.1 x hx) hc,
   fun x hx => Nat.lt_of_lt_of_le (h.2.2.2 x hx) hc⟩

theorem idInv_fireDueTimers {s : ApiState} {c : Nat} (now : Nat) (h : IdInv s c) :
    IdInv (fireDueTimers s now) c := by
  unfold IdInv
  rw [fireDueTimers_tasks, fireDueTimers_table]
  exact h

theorem putTask_fst (table : List Row) (id : Nat) (body : Routes.PutBody)
    (now : Nat) :
    (Routes.putTask table id body now).1 = table.map (Routes.updRow id body now) := by
  simp only [Routes.putTask]
  split <;> rfl

theorem rowIds_map_updRow (table : List Row) (id : Nat) (body : Routes.PutBody)
    (now : Nat) :
    rowIds (table.map (Routes.updRow id body now)) = rowIds table := by
  unfold rowIds
  rw [List.map_map]
  exact List.map_congr_left (fun r _ => updRow_id id body now r)

theorem deleteTask_fst_sublist (table : List Row) (id : Nat) :
    ((Routes.deleteTask table id).1).Sublist table := by
  simp only [Routes.deleteTask]
  split
  · exact List.filter_sublist table
  · exact List.Sublist.refl table

theorem idsOf_fresh_cons {l : List Task} {c now : Nat} (t : Task)
    (hnodup : (idsOf l).Nodup) (hbound : ∀ x ∈ idsOf l, x < c) (hc : c ≤ now)
    (hid : t.id = now) :
    (idsOf (t :: l)).Nodup ∧ ∀ x ∈ idsOf (t :: l), x < now + 1 := by
  constructor
  · rw [show idsOf (t :: l) = t.id :: idsOf l from rfl, List.nodup_cons]
    refine ⟨fun hmem => ?_, hnodup⟩
    have h2 : t.id < c := hbound t.id hmem
    omega
  · intro x hx
    rcases List.mem_cons.mp hx with h1 | h1
    · have h3 : x = t.id := h1
      omega
    · have h3 : x < c := hbound x h1
      omega

theorem rowIds_fresh_concat {table : List Row} {c now : Nat} (r : Row)
    (hnodup : (rowIds table).Nodup) (hbound : ∀ x ∈ rowIds table, x < c)
    (hc : c ≤ now) (hid : r.id = now) :
    (rowIds (table ++ [r])).Nodup ∧ ∀ x ∈ rowIds (table ++ [r]), x < now + 1 := by
  have hperm : (rowIds (table ++ [r])).Perm (r.id :: rowIds table) := by
    unfold rowIds
    rw [List.map_append]
    exact List.perm_append_singleton _ _
  constructor
  · rw [hperm.nodup_iff, List.nodup_cons]
    refine ⟨fun hmem => ?_, hnodup⟩
    have h2 : r.id < c := hbound r.id hmem
    omega
  · intro x hx
    rcases List.mem_cons.mp (hperm.mem_iff.mp hx) with h1 | h1
    · have h3 : x = r.id := h1
      omega
    · have h3 : x < c := hbound x h1
      omega

theorem idsOf_spliceInsert_perm (l : List Task) (i : Int) (t : Task) :
    (idsOf (spliceInsert l i t)).Perm (t.id :: idsOf l) := by
  unfold idsOf
  have := (spliceInsert_perm l i t).map (fun t => t.id)
  simpa using this

theorem table_fresh {s : ApiState} {c : Nat} (now : Nat)
    (hbound : ∀ x ∈ rowIds s.table, x < c) (hc : c ≤ now) :
    s.table.any (fun r => r.id = now) = false := by
  refine any_id_eq_false ?_
  intro r hr
  have : r.id ∈ rowIds s.table := List.mem_map.mpr ⟨r, hr, rfl⟩
  have := hbound r.id this
  omega

end ToDoList

namespace ToDoList

theorem idsOf_fresh_splice {l : List Task} {c now : Nat} (i : Int) (t : Task)
    (hnodup : (idsOf l).Nodup) (hbound : ∀ x ∈ idsOf l, x < c) (hc : c ≤ now)
    (hid : t.id = now) :
    (idsOf (spliceInsert l i t)).Nodup ∧
      ∀ x ∈ idsOf (spliceInsert l i t), x < now + 1 := by
  have hperm := idsOf_spliceInsert_perm l i t
  constructor
  · rw [hperm.nodup_iff, List.nodup_cons]
    refine ⟨fun hmem => ?_, hnodup⟩
    have h2 : t.id < c := hbound t.id hmem
    omega
  · intro x hx
    rcases List.mem_cons.mp (hperm.mem_iff.mp hx) with h1 | h1
    · have h3 : x = t.id := h1
      omega
    · have h3 : x < c := hbound x h1
      omega

theorem idInv_addTask (s : ApiState) (title : String) (now : Nat) (ok : Bool)
    {c : Nat} (h : IdInv s c) (hc : c ≤ now) :
    IdInv (ApiApp.addTask s title now ok).1 (now + 1) := by
  have h' := idInv_fireDueTimers now h
  cases ok with
  | false =>
    have he : (ApiApp.addTask s title now false).1 = fireDueTimers s now := by
      simp [ApiApp.addTask]
    rw [he]
    exact idInv_mono h' (by omega)
  | true =>
    by_cases ht : jsTrim title = ""
    · have he : (ApiApp.addTask s title now true).1.tasks = s.tasks ∧
          (ApiApp.addTask s title now true).1.table = s.table := by
        constructor <;>
          simp [ApiApp.addTask, Routes.postTasks, ht, ApiApp.respOk,
            fireDueTimers_tasks, fireDueTimers_table]
      unfold IdInv
      rw [he.1, he.2]
      exact idInv_mono h (by omega)
    · have hfresh : ∀ r ∈ s.table, r.id ≠ now := by
        intro r hr
        have hmem : r.id ∈ rowIds s.table := List.mem_map.mpr ⟨r, hr, rfl⟩
        have h3 : r.id < c := h.2.2.2 r.id hmem
        omega
      have hstep := addTask_success s title now ht hfresh
      unfold IdInv
      rw [hstep.1, hstep.2]
      exact ⟨(idsOf_fresh_cons _ h.1 h.2.2.1 hc rfl).1,
        (rowIds_fresh_concat _ h.2.1 h.2.2.2 hc rfl).1,
        (idsOf_fresh_cons _ h.1 h.2.2.1 hc rfl).2,
        (rowIds_fresh_concat _ h.2.1 h.2.2.2 hc rfl).2⟩

theorem toggleTask_table_rowIds (s : ApiState) (id now : Nat) (ok : Bool) :
    rowIds (ApiApp.toggleTask s id now ok).1.table = rowIds s.table := by
  simp only [ApiApp.toggleTask]
  split
  · exact congrArg rowIds (fireDueTimers_table s now)
  · split
    · exact congrArg rowIds (fireDueTimers_table s now)
    · split
      · rw [putTask_fst, fireDueTimers_table, rowIds_map_updRow]
      · split
        · rw [putTask_fst, fireDueTimers_table, rowIds_map_updRow]
        · split
          · rw [putTask_fst, fireDueTimers_table, rowIds_map_updRow]
          · rw [putTask_fst, fireDueTimers_table, rowIds_map_updRow]

theorem editTask_table_rowIds (s : ApiState) (id : Nat) (nt : String) (now : Nat)
    (ok : Bool) :
    rowIds (ApiApp.editTask s id nt now ok).1.table = rowIds s.table := by
  simp only [ApiApp.editTask]
  split
  · exact congrArg rowIds (fireDueTimers_table s now)
  · split
    · exact congrArg rowIds (fireDueTimers_table s now)
    · split
      · rw [putTask_fst, fireDueTimers_table, rowIds_map_updRow]
      · split
        · rw [putTask_fst, fireDueTimers_table, rowIds_map_updRow]
        · split
          · rw [putTask_fst, fireDueTimers_table, rowIds_map_updRow]
          · rw [putTask_fst, fireDueTimers_table, rowIds_map_updRow]

theorem idInv_toggleTask (s : ApiState) (id now : Nat) (ok : Bool) {c : Nat}
    (h : IdInv s c) : IdInv (ApiApp.toggleTask s id now ok).1 c := by
  have htasks : idsOf (ApiApp.toggleTask s id now ok).1.tasks = idsOf s.tasks :=
    toggleTask_map_id s id now ok
  have htable := toggleTask_table_rowIds s id now ok
  unfold IdInv
  rw [htasks, htable]
  exact h

theorem idInv_editTask (s : ApiState) (id : Nat) (nt : String) (now : Nat)
    (ok : Bool) {c : Nat} (h : IdInv s c) :
    IdInv (ApiApp.editTask s id nt now ok).1 c := by
  have htasks : idsOf (ApiApp.editTask s id nt now ok).1.tasks = idsOf s.tasks :=
    editTask_map_id s id nt now ok
  have htable := editTask_table_rowIds s id nt now ok
  unfold IdInv
  rw [htasks, htable]
  exact h

theorem idInv_deleteTask (s : ApiState) (id now : Nat) (ok : Bool) {c : Nat}
    (h : IdInv s c) : IdInv (ApiApp.deleteTask s id now ok).1 c := by
  have h' := idInv_fireDueTimers now h
  cases hidx : findIndexO (fun t => t.id = id) (fireDueTimers s now).tasks with
  | none =>
    simp only [ApiApp.deleteTask, hidx]
    exact h'
  | some index =>
    cases htask : (fireDueTimers s now).tasks[index]? with
    | none =>
      simp only [ApiApp.deleteTask, hidx, htask]
      exact h'
    | some task =>
      have hneg : ¬ ((index : Int) = -1) := by omega
      have hsplice := spliceInsert_eraseIdx (fireDueTimers s now).tasks index task htask
      have hsub : (idsOf ((fireDueTimers s now).tasks.eraseIdx index)).Sublist
          (idsOf (fireDueTimers s now).tasks) := by
        unfold idsOf
        exact (List.eraseIdx_sublist _ index).map (fun t : Task => t.id)
      have htbl : (rowIds (Routes.deleteTask (fireDueTimers s now).table id).1).Sublist
          (rowIds (fireDueTimers s now).table) := by
        unfold rowIds
        exact (deleteTask_fst_sublist _ id).map (fun r : Row => r.id)
      simp only [ApiApp.deleteTask, hidx, htask, ApiApp.restoreOnError, if_neg hneg]
      split
      · rw [hsplice]
        exact ⟨h'.1, h'.2.1, h'.2.2.1, h'.2.2.2⟩
      · split
        · rw [hsplice]
          exact ⟨h'.1, h'.2.1.sublist htbl, h'.2.2.1,
            fun x hx => h'.2.2.2 x (htbl.subset hx)⟩
        · exact ⟨h'.1.sublist hsub, h'.2.1.sublist htbl,
            fun x hx => h'.2.2.1 x (hsub.subset hx),
            fun x hx => h'.2.2.2 x (htbl.subset hx)⟩

theorem idInv_undoDelete (s : ApiState) (now : Nat) (ok : Bool) {c : Nat}
    (h : IdInv s c) (hc : c ≤ now) :
    IdInv (ApiApp.undoDelete s now ok).1 (now + 1) := by
  have h' := idInv_fireDueTimers now h
  cases hdt : (fireDueTimers s now).deletedTask with
  | none =>
    simp only [ApiApp.undoDelete, hdt]
    exact idInv_mono h' (by omega)
  | some dt =>
    cases ok with
    | false =>
      have he : (ApiApp.undoDelete s now false).1 = fireDueTimers s now := by
        simp [ApiApp.undoDelete, hdt]
      rw [he]
      exact idInv_mono h' (by omega)
    | true =>
      by_cases ht : jsTrim dt.title = ""
      · have he : (ApiApp.undoDelete s now true).1.tasks = s.tasks ∧
            (ApiApp.undoDelete s now true).1.table = s.table := by
          constructor <;>
            simp [ApiApp.undoDelete, hdt, Routes.postTasks, ht, ApiApp.respOk,
              fireDueTimers_tasks, fireDueTimers_table]
        unfold IdInv
        rw [he.1, he.2]
        exact idInv_mono h (by omega)
      · have hany : (fireDueTimers s now).table.any (fun r => r.id = now) = false := by
          rw [fireDueTimers_table]
          exact table_fresh now h.2.2.2 hc
        have hpost : Routes.postTasks (fireDueTimers s now).table (some dt.title) now =
            ((fireDueTimers s now).table ++ [⟨now, jsTrim dt.title, false, now, now⟩],
             ⟨201, true, some ⟨now, jsTrim dt.title, false, now⟩, none⟩) := by
          simp [Routes.postTasks, ht, hany, Row.toTask]
        have he1 : (ApiApp.undoDelete s now true).1.tasks =
            spliceInsert (fireDueTimers s now).tasks
              (fireDueTimers s now).deletedTaskIndex
              (⟨now, jsTrim dt.title, false, now⟩ : Task) := by
          simp [ApiApp.undoDelete, hdt, hpost, ApiApp.respOk]
        have he2 : (ApiApp.undoDelete s now true).1.table =
            (fireDueTimers s now).table ++ [⟨now, jsTrim dt.title, false, now, now⟩] := by
          simp [ApiApp.undoDelete, hdt, hpost, ApiApp.respOk]
        unfold IdInv
        rw [he1, he2]
        exact ⟨(idsOf_fresh_splice _ _ h'.1 h'.2.2.1 hc rfl).1,
          (rowIds_fresh_concat _ h'.2.1 h'.2.2.2 hc rfl).1,
          (idsOf_fresh_splice _ _ h'.1 h'.2.2.1 hc rfl).2,
          (rowIds_fresh_concat _ h'.2.1 h'.2.2.2 hc rfl).2⟩

theorem idInv_applyOp (s : ApiState) (op : Op) (now : Nat) (ok : Bool) {c : Nat}
    (h : IdInv s c) (hc : c ≤ now) : IdInv (applyOp s op now ok) (now + 1) := by
  cases op with
  | add t => exact idInv_addTask s t now ok h hc
  | toggle id => exact idInv_mono (idInv_toggleTask s id now ok h) (by omega)
  | edit id t => exact idInv_mono (idInv_editTask s id t now ok h) (by omega)
  | del id => exact idInv_mono (idInv_deleteTask s id now ok h) (by omega)
  | undo => exact idInv_undoDelete s now ok h hc

theorem idInv_runTrace :
    ∀ (tr : List (Op × Nat × Bool)) (s : ApiState) (c : Nat),
      IdInv s c → TimesOk c tr = true →
      ∃ c2, IdInv (runTrace s tr) c2 := by
  intro tr
  induction tr with
  | nil => intro s c h _; exact ⟨c, h⟩
  | cons e rest ih =>
    intro s c h htimes
    have htimes' : (decide (c ≤ e.2.1) && TimesOk (e.2.1 + 1) rest) = true := htimes
    rw [Bool.and_eq_true] at htimes'
    have hc : c ≤ e.2.1 := by simpa using htimes'.1
    exact ih _ (e.2.1 + 1) (idInv_applyOp s e.1 e.2.1 e.2.2 h hc) htimes'.2

/-- Claim C6: along every session whose operation times strictly increase
(normal clock), each task id occurs at most once in the in-memory sequence
and at most once in the table — in particular any two successful creations
(adds or undo re-creations) allocate distinct ids. -/
theorem unique_ids (tr : List (Op × Nat × Bool)) (h : TimesOk 0 tr = true) :
    ((runTrace initState tr).tasks.map (fun t => t.id)).Nodup ∧
    ((runTrace initState tr).table.map (fun r => r.id)).Nodup := by
  have hinit : IdInv initState 0 := by
    refine ⟨?_, ?_, ?_, ?_⟩ <;> simp [initState, idsOf, rowIds]
  rcases idInv_runTrace tr initState 0 hinit h with ⟨c2, hi⟩
  exact ⟨hi.1, hi.2.1⟩

/-- Witness for C6: a session with two adds, a toggle, a delete and an undo
replay, at strictly increasing times. -/
theorem unique_ids_witness :
    TimesOk 0 [(Op.add "milk", 1, true), (Op.add "eggs", 3, true),
      (Op.toggle 1, 5, true), (Op.del 1, 7, true), (Op.undo, 9, true)] = true ∧
    ((runTrace initState [(Op.add "milk", 1, true), (Op.add "eggs", 3, true),
      (Op.toggle 1, 5, true), (Op.del 1, 7, true), (Op.undo, 9, true)]).tasks.map
        (fun t => t.id)).Nodup ∧
    ((runTrace initState [(Op.add "milk", 1, true), (Op.add "eggs", 3, true),
      (Op.toggle 1, 5, true), (Op.del 1, 7, true), (Op.undo, 9, true)]).table.map
        (fun r => r.id)).Nodup :=
  ⟨by decide,
   unique_ids [(Op.add "milk", 1, true), (Op.add "eggs", 3, true),
     (Op.toggle 1, 5, true), (Op.del 1, 7, true), (Op.undo, 9, true)] (by decide)⟩

end ToDoList
